import Mathlib

/-
Verification development for the ZEN-MIND teletherapy booking subsystem.

The model is a shallow embedding of the session-lifecycle code:
  * src/server/routes/booking.js           (instant-book, therapist-status,
                                            join-session, end-session routes)
  * src/server/services/sessionAutoEndService.js  (the cron sweeper)

Timestamps are modelled as milliseconds since the epoch (Int, the value of
JavaScript Date.getTime()).  The persistence layer is modelled as lists of
records with find-by-id / save-by-id semantics.  JavaScript exceptions that a
route's try/catch turns into a 500 response are modelled as explicit error
results; the sweeper's single tick-level try/catch is modelled with Except.
-/

namespace ZenMind

/-- Appointment.status: enumerated scheduled / completed / cancelled. -/
inductive Status where
  | scheduled
  | completed
  | cancelled
deriving DecidableEq

/-- The booking entity.  `date` is the scheduled session start instant
(ms since epoch); `duration` is in minutes; `amount` is payment.amount.
The stored HH:MM display strings startTime/endTime are derived from `date`,
so they are not stored separately; where the sweeper re-parses startTime the
model uses the minute-floor of `date` (see floorMinute). -/
structure Appointment where
  id : Nat
  userId : Nat
  therapistId : Nat
  date : Int
  duration : Nat
  status : Status
  amount : Nat
  meetingLink : String
deriving DecidableEq

/-- Therapist.currentSession, the per-therapist availability ledger. -/
structure Ledger where
  isActive : Bool
  appointmentId : Option Nat
  startedAt : Option Int
  endsAt : Option Int
deriving DecidableEq

/-- A TherapistAuth record; `perSession` is pricing.perSession (none models a
missing pricing object, and the code also rejects a falsy 0 value).  The
stored price is a JavaScript number; the model takes it to be a nonnegative
integer (as in the data and in every documented example), which below 2^53 is
itself exactly representable in binary64. -/
structure Therapist where
  id : Nat
  perSession : Option Nat
  currentSession : Option Ledger
deriving DecidableEq

/-- The record store: therapists, user ids, appointments. -/
structure DB where
  therapists : List Therapist
  users : List Nat
  appointments : List Appointment
deriving DecidableEq

/-- The cleared ledger object the code assigns when resetting a session:
isActive false and all other fields null. -/
def idleLedger : Ledger := ⟨false, none, none, none⟩

/-- Model.findById on TherapistAuth. -/
def findTher (db : DB) (i : Nat) : Option Therapist :=
  db.therapists.find? (fun t => t.id == i)

/-- Model.findById on Appointment. -/
def findAppt (db : DB) (i : Nat) : Option Appointment :=
  db.appointments.find? (fun a => a.id == i)

/-- document.save() for a therapist: overwrite the record with this id. -/
def saveTher (db : DB) (t : Therapist) : DB :=
  { db with therapists := db.therapists.map (fun x => if x.id = t.id then t else x) }

/-- document.save() for an appointment: overwrite the record with this id. -/
def saveAppt (db : DB) (a : Appointment) : DB :=
  { db with appointments := db.appointments.map (fun x => if x.id = a.id then a else x) }

/-- Appointment.create: append a new record. -/
def createAppt (db : DB) (a : Appointment) : DB :=
  { db with appointments := db.appointments ++ [a] }

/-! ### IEEE-754 binary64 model of the pricing arithmetic

booking.js lines 109-110 compute
  perMinuteRate = therapist.pricing.perSession / 30;
  amount = Math.ceil(perMinuteRate * duration);
on JavaScript numbers (binary64).  Each of the division and the
multiplication is correctly rounded to 53 significant bits of the result's
own binade, round-to-nearest ties-to-even.  All values reached by the code
are positive and normal, far from overflow and subnormal range, so that
rounding rule models binary64 exactly here.  A positive double is
represented below as an exact pair: mantissa m in [2^52, 2^53] and binary
exponent e, denoting m * 2^e. -/

/-- Round-to-nearest of the quotient num/den (den positive), ties to even. -/
def rneDiv (num den : Nat) : Nat :=
  let q := num / den
  let r := num % den
  if 2 * r < den then q
  else if den < 2 * r then q + 1
  else if q % 2 = 0 then q else q + 1

/-- Greatest k (below 128) with 2^k at most n: the floor of log2 for
positive n in the 64-bit-magnitude range this model uses. -/
def log2floor (n : Nat) : Nat :=
  (List.range 128).foldl (fun acc k => if 2 ^ k ≤ n then k else acc) 0

/-- Least k with 2^k at least n (n positive): ceiling log2. -/
def log2ceil (n : Nat) : Nat :=
  if n ≤ 1 then 0 else log2floor (n - 1) + 1

/-- Floor of log2 of the positive rational num/den: the binade exponent of
the quotient. -/
def qlog2 (num den : Nat) : Int :=
  if den ≤ num then (log2floor (num / den) : Int)
  else -(log2ceil ((den + num - 1) / num) : Int)

/-- Correctly round the positive rational num/den to binary64: the result
(m, e) denotes m * 2^e with m = rne((num/den) / 2^e) and e chosen so that
num/den lies in the binade [2^(e+52), 2^(e+53)). -/
def roundDoublePos (num den : Nat) : Nat × Int :=
  let b := qlog2 num den
  if b ≤ 52 then (rneDiv (num * 2 ^ (52 - b).toNat) den, b - 52)
  else (rneDiv num (den * 2 ^ (b - 52).toNat), b - 52)

/-- amount = Math.ceil((perSession / 30) * duration) evaluated in binary64:
the division p/30 rounds once to (m1, e1); the product with the exactly
representable duration d is m1*d * 2^e1 and rounds once more to (m2, e2)
relative to e1; Math.ceil of the positive result m2 * 2^(e2+e1). -/
def amountJS (p d : Nat) : Nat :=
  let r1 := roundDoublePos p 30
  let r2 := roundDoublePos (r1.1 * d) 1
  let e : Int := r2.2 + r1.2
  if 0 ≤ e then r2.1 * 2 ^ e.toNat
  else (r2.1 + 2 ^ (-e).toNat - 1) / 2 ^ (-e).toNat

/-- The exact-arithmetic reading of the spec formula
amount = ceil(perSession / 30 * duration). -/
def amountSpec (p d : Nat) : Nat :=
  (p * d + 29) / 30

/-! ### Route models -/

/-- Outcome of POST /api/booking/instant-book. -/
inductive BookResult where
  /-- 400: missing/invalid input or unconfigured pricing. -/
  | badRequest
  /-- 404: therapist not found. -/
  | therapistNotFound
  /-- 404: user not found. -/
  | userNotFound
  /-- 400: therapist busy, carries availableAt. -/
  | busy (availableAt : Int)
  /-- 200: appointment created, carries canJoinAt. -/
  | ok (appt : Appointment) (canJoinAt : Int)
deriving DecidableEq

/-- The part of the instant-book route after the busy check (booking.js
lines 86-206): resolve the user, compute the session window and price,
create the appointment, occupy the therapist's ledger.  The generated
transaction id / meeting link are modelled by the `meetingLink` parameter and
the fresh `newApptId`.  E-mail sending failures are swallowed by the route
and have no effect on the modelled state. -/
def bookFinish (db : DB) (t : Therapist) (p : Nat) (now : Int) (userId : Nat)
    (duration : Nat) (newApptId : Nat) (meetingLink : String) : BookResult × DB :=
  if userId ∈ db.users then
    let sessionStart := now + 300000
    let sessionEnd := sessionStart + (duration : Int) * 60000
    let amount := amountJS p duration
    let appt : Appointment :=
      ⟨newApptId, userId, t.id, sessionStart, duration, .scheduled, amount, meetingLink⟩
    let db1 := createAppt db appt
    let db2 := saveTher db1
      { t with currentSession := some ⟨true, some newApptId, some sessionStart, some sessionEnd⟩ }
    (.ok appt sessionStart, db2)
  else (.userNotFound, db)

/-- POST /api/booking/instant-book (booking.js lines 13-215).  Validation
order as in the source: required/enumerated duration, therapist lookup,
pricing check, then the busy check with self-healing of a corrupt ledger
(isActive with null endsAt) or of an expired one, then user lookup and the
actual booking. -/
def instantBook (db : DB) (now : Int) (userId : Nat) (therapistId : Nat)
    (duration : Nat) (newApptId : Nat) (meetingLink : String) : BookResult × DB :=
  if therapistId = 0 ∨ duration = 0 then (.badRequest, db)
  else if ¬(duration = 30 ∨ duration = 60) then (.badRequest, db)
  else
    match findTher db therapistId with
    | none => (.therapistNotFound, db)
    | some therapist =>
      match therapist.perSession with
      | none => (.badRequest, db)
      | some p =>
        if p = 0 then (.badRequest, db)
        else
          match therapist.currentSession with
          | some cs =>
            if cs.isActive then
              match cs.endsAt with
              | none =>
                let t' := { therapist with currentSession := some idleLedger }
                bookFinish (saveTher db t') t' p now userId duration newApptId meetingLink
              | some e =>
                if now < e then (.busy e, db)
                else
                  let t' := { therapist with currentSession := some idleLedger }
                  bookFinish (saveTher db t') t' p now userId duration newApptId meetingLink
            else bookFinish db therapist p now userId duration newApptId meetingLink
          | none => bookFinish db therapist p now userId duration newApptId meetingLink

/-- Response data of GET /api/booking/therapist-status. -/
structure StatusData where
  isAvailable : Bool
  availableAt : Option Int
  currentSession : Option Ledger
deriving DecidableEq

/-- Outcome of GET /api/booking/therapist-status/:therapistId. -/
inductive StatusResult where
  | notFound
  | ok (d : StatusData)
deriving DecidableEq

/-- GET /api/booking/therapist-status/:therapistId (booking.js lines 220-281),
with the same self-healing of a corrupt or expired ledger as instant-book. -/
def therapistStatus (db : DB) (now : Int) (therapistId : Nat) : StatusResult × DB :=
  match findTher db therapistId with
  | none => (.notFound, db)
  | some t =>
    match t.currentSession with
    | some cs =>
      if cs.isActive then
        match cs.endsAt with
        | none =>
          let t' := { t with currentSession := some idleLedger }
          (.ok ⟨true, none, some idleLedger⟩, saveTher db t')
        | some e =>
          if now < e then (.ok ⟨false, some e, some cs⟩, db)
          else
            let t' := { t with currentSession := some idleLedger }
            (.ok ⟨true, none, some idleLedger⟩, saveTher db t')
      else (.ok ⟨true, none, some cs⟩, db)
    | none => (.ok ⟨true, none, none⟩, db)

/-- Outcome of POST /api/booking/join-session/:appointmentId. -/
inductive JoinResult where
  | notFound
  /-- 403: caller is neither the booking user nor the assigned therapist. -/
  | forbidden
  /-- 400: too early, carries the wait in minutes and canJoinAt. -/
  | tooEarly (waitMinutes : Int) (canJoinAt : Int)
  /-- 400: session has ended. -/
  | ended
  /-- 200: carries the room identifier and which role the caller has. -/
  | ok (meetingLink : String) (isTherapist : Bool)
deriving DecidableEq

/-- Exact integer ceiling division (b positive). -/
def ceilDiv (a b : Int) : Int := -((-a) / b)

/-- POST /api/booking/join-session/:appointmentId (booking.js lines 286-357).
The route computes Math.ceil((fiveMinBefore - now) / 60000) on binary64; for
date differences in the JavaScript Date range the quotient by 60000 never
rounds across an integer, so the exact ceiling ceilDiv models it.  The route
never writes to the store. -/
def joinSession (db : DB) (now : Int) (callerId : Nat) (apptId : Nat) : JoinResult :=
  match findAppt db apptId with
  | none => .notFound
  | some a =>
    let isUser : Bool := a.userId == callerId
    let isTherapist : Bool := a.therapistId == callerId
    if !isUser && !isTherapist then .forbidden
    else
      let sessionStart := a.date
      let fiveMinBefore := sessionStart - 300000
      let sessionEnd := sessionStart + (a.duration : Int) * 60000
      if now < fiveMinBefore then
        .tooEarly (ceilDiv (fiveMinBefore - now) 60000) fiveMinBefore
      else if sessionEnd < now then .ended
      else .ok a.meetingLink isTherapist

/-- Outcome of POST /api/booking/end-session/:appointmentId. -/
inductive EndResult where
  | notFound
  | ok
  /-- 500: the handler threw.  The only throw sites are
  appointment.therapistId being null after a failed populate and
  currentSession.appointmentId.toString() on a null appointmentId. -/
  | serverError
deriving DecidableEq

/-- The ledger update of the end-session route (booking.js lines 378-392),
running on the state where the appointment is already saved completed.  If
the populated therapist is missing, or the ledger's appointmentId is null,
currentSession / appointmentId.toString() throws and the route answers 500;
if the ledger references this appointment, it enters the 10-minute cooldown. -/
def endLedgerUpdate (db1 : DB) (a : Appointment) (now : Int) : EndResult × DB :=
  match findTher db1 a.therapistId with
  | none => (.serverError, db1)
  | some t =>
    match t.currentSession with
    | none => (.ok, db1)
    | some cs =>
      match cs.appointmentId with
      | none => (.serverError, db1)
      | some aid =>
        if aid = a.id then
          (.ok, saveTher db1 { t with currentSession := some ⟨true, none, none, some (now + 600000)⟩ })
        else (.ok, db1)

/-- POST /api/booking/end-session/:appointmentId (booking.js lines 362-406).
`callerId` is the authenticated identity (req.user.id); the handler never
reads it.  The status write is saved before the ledger update, so a throw in
the ledger update leaves the completed status in place. -/
def endSession (db : DB) (now : Int) (callerId : Nat) (apptId : Nat) : EndResult × DB :=
  match findAppt db apptId with
  | none => (.notFound, db)
  | some a => endLedgerUpdate (saveAppt db { a with status := Status.completed }) a now

/-! ### The reconciliation sweeper (sessionAutoEndService.js) -/

/-- Floor a timestamp to the minute.  The sweeper rebuilds the session start
by parsing the stored HH:MM string (printed from `date` itself) and calling
setHours(h, m, 0, 0) on a copy of `date`, which zeroes its seconds and
milliseconds, i.e. floors it to the minute (time-zone offsets are whole
minutes). -/
def floorMinute (t : Int) : Int := t - t % 60000

/-- The therapist part of one appointment sweep iteration
(sessionAutoEndService.js lines 39-51): when the therapist's ledger is active
and references this appointment, clear the ledger to idle.  An active ledger
with a null appointmentId makes appointmentId.toString() throw; the throw is
Except.error carrying the state at the throw point. -/
def sweepTherClear (db1 : DB) (a : Appointment) : Except DB DB :=
  match findTher db1 a.therapistId with
  | none => .ok db1
  | some t =>
    match t.currentSession with
    | some cs =>
      if cs.isActive then
        match cs.appointmentId with
        | none => .error db1
        | some aid =>
          if aid = a.id then .ok (saveTher db1 { t with currentSession := some idleLedger })
          else .ok db1
      else .ok db1
    | none => .ok db1

/-- One iteration of the appointment sweep loop (sessionAutoEndService.js
lines 23-53) on a snapshot document `a`: if the recomputed end (minute-floor
of `date` plus duration) is past, mark completed and run the ledger clear. -/
def sweepApptStep (now : Int) (db : DB) (a : Appointment) : Except DB DB :=
  if floorMinute a.date + (a.duration : Int) * 60000 < now then
    sweepTherClear (saveAppt db { a with status := Status.completed }) a
  else .ok db

/-- The appointment sweep: iterate the snapshot list; a throw aborts the
remainder of the loop. -/
def sweepAppts (now : Int) : List Appointment → DB → Except DB DB
  | [], db => .ok db
  | a :: rest, db =>
    match sweepApptStep now db a with
    | .ok db' => sweepAppts now rest db'
    | .error db' => .error db'

/-- The instant the ledger sweep reads as the session end: endsAt, with a
null endsAt reading as the epoch (new Date(null)). -/
def endsAtOf (t : Therapist) : Int :=
  match t.currentSession with
  | some cs => match cs.endsAt with | some v => v | none => 0
  | none => 0

/-- One iteration of the ledger sweep loop (sessionAutoEndService.js lines
60-74) on a snapshot therapist: clear the ledger once now is past
endsAt + 10 minutes. -/
def sweepTherStep (now : Int) (db : DB) (t : Therapist) : DB :=
  if endsAtOf t + 600000 < now then saveTher db { t with currentSession := some idleLedger }
  else db

/-- The ledger sweep over the snapshot list of active therapists. -/
def sweepThers (now : Int) : List Therapist → DB → DB
  | [], db => db
  | t :: rest, db => sweepThers now rest (sweepTherStep now db t)

/-- The query filter currentSession.isActive = true. -/
def ledgerActive (t : Therapist) : Bool :=
  match t.currentSession with
  | some cs => cs.isActive
  | none => false

/-- The appointment-sweep query snapshot: status scheduled and date at or
before now. -/
def expiredList (now : Int) (db : DB) : List Appointment :=
  db.appointments.filter
    (fun a => decide (a.status = Status.scheduled) && decide (a.date ≤ now))

/-- The ledger-sweep query snapshot: currentSession.isActive = true. -/
def activeThers (db : DB) : List Therapist :=
  db.therapists.filter ledgerActive

/-- One tick of the auto-end cron job (sessionAutoEndService.js lines 13-78):
the appointment sweep over the scheduled-and-started query snapshot, then the
ledger sweep over the then-active therapists.  The single tick-level
try/catch only logs: a throw in the appointment sweep skips the rest of that
tick, leaving the state reached at the throw. -/
def sweepTick (now : Int) (db : DB) : DB :=
  match sweepAppts now (expiredList now db) db with
  | .error db' => db'
  | .ok db1 => sweepThers now (activeThers db1) db1

/-! ### Invariant vocabulary -/

/-- Every way of reading appointment i from the store yields a completed
record (vacuously true when the id is absent). -/
def ApptCompleted (db : DB) (i : Nat) : Prop :=
  ∀ x, findAppt db i = some x → x.status = Status.completed

/-- Therapist i is present and the ledger is the cleared idle object. -/
def TherIdle (db : DB) (i : Nat) : Prop :=
  ∃ t, findTher db i = some t ∧ t.currentSession = some idleLedger

/-- The state reached by a sweep step, throw or not. -/
def outDB : Except DB DB → DB
  | .ok d => d
  | .error d => d

/-! ### Concrete stores used to evaluate the model -/

/-- A therapist occupied by appointment 1 until instant 1800000. -/
def therA : Therapist := ⟨2, some 500, some ⟨true, some 1, some 0, some 1800000⟩⟩

/-- The scheduled instant booking occupying therA. -/
def apptA : Appointment := ⟨1, 10, 2, 0, 30, .scheduled, 500, "room"⟩

/-- Store with one occupied therapist and its scheduled appointment. -/
def dbA : DB := ⟨[therA], [10], [apptA]⟩

/-- A cancelled appointment (the external refund flow's terminal state). -/
def apptC : Appointment := ⟨1, 10, 2, 0, 30, .cancelled, 500, "room"⟩

/-- Store with a cancelled appointment. -/
def dbC : DB := ⟨[⟨2, some 500, none⟩], [10], [apptC]⟩

/-- First overdue appointment of the aborting-sweep store. -/
def apptE1 : Appointment := ⟨1, 10, 2, 0, 30, .scheduled, 500, "r1"⟩

/-- Second overdue appointment of the aborting-sweep store. -/
def apptE3 : Appointment := ⟨3, 11, 4, 0, 30, .scheduled, 500, "r2"⟩

/-- Store whose first overdue appointment's therapist has an active ledger
with a null appointmentId, so sweeping it throws. -/
def dbE : DB :=
  ⟨[⟨2, some 500, some ⟨true, none, none, some 1800000⟩⟩,
    ⟨4, some 500, some ⟨true, some 3, some 0, some 1800000⟩⟩], [10, 11], [apptE1, apptE3]⟩

/-- The state at that throw: appointment 1 saved completed, nothing else. -/
def dbE1 : DB := saveAppt dbE { apptE1 with status := Status.completed }

/-- Store with a corrupt ledger: isActive true and endsAt null. -/
def dbX : DB := ⟨[⟨2, some 500, some ⟨true, none, none, none⟩⟩], [10], []⟩

/-- Store with an idle therapist priced at 500 and one registered user. -/
def dbP : DB := ⟨[⟨2, some 500, none⟩], [10], []⟩

/-- An appointment starting at instant 600000, for the join window. -/
def apptJ : Appointment := ⟨1, 10, 2, 600000, 30, .scheduled, 500, "roomJ"⟩

/-- Store holding apptJ. -/
def dbJ : DB := ⟨[⟨2, some 500, none⟩], [10], [apptJ]⟩

/-! ### Frame lemmas for the record store -/

theorem find?_map_upd {α : Type} (key : α → Nat) (upd : α → α)
    (hk : ∀ x, key (upd x) = key x) (l : List α) (i : Nat) :
    (l.map upd).find? (fun x => key x == i) = (l.find? (fun x => key x == i)).map upd := by
  induction l with
  | nil => rfl
  | cons x xs ih =>
    simp only [List.map_cons, List.find?_cons, hk]
    cases h : (key x == i) with
    | false => simpa [h] using ih
    | true => simp [h]

theorem find?_key_of_mem_nodup {α : Type} (key : α → Nat) {l : List α} {a : α}
    (hnd : (l.map key).Nodup) (ha : a ∈ l) :
    l.find? (fun x => key x == key a) = some a := by
  induction l with
  | nil => cases ha
  | cons x xs ih =>
    rcases List.mem_cons.mp ha with rfl | hmem
    · simp [List.find?_cons]
    · have hx : key x ≠ key a := by
        intro he
        have : key a ∈ xs.map key := List.mem_map_of_mem key hmem
        rw [← he] at this
        exact (List.nodup_cons.mp (by simpa using hnd)).1 this
      have hnd' : (xs.map key).Nodup := (List.nodup_cons.mp (by simpa using hnd)).2
      simp only [List.find?_cons]
      cases hb : (key x == key a) with
      | true => exact absurd (eq_of_beq hb) hx
      | false => exact ih hnd' hmem

theorem findTher_saveTher (db : DB) (t : Therapist) (i : Nat) :
    findTher (saveTher db t) i
      = (findTher db i).map (fun x => if x.id = t.id then t else x) := by
  unfold findTher saveTher
  exact find?_map_upd (fun (x : Therapist) => x.id)
    (fun x => if x.id = t.id then t else x)
    (fun x => by by_cases h : x.id = t.id <;> simp [h]) _ i

theorem findAppt_saveAppt (db : DB) (a : Appointment) (i : Nat) :
    findAppt (saveAppt db a) i
      = (findAppt db i).map (fun x => if x.id = a.id then a else x) := by
  unfold findAppt saveAppt
  exact find?_map_upd (fun (x : Appointment) => x.id)
    (fun x => if x.id = a.id then a else x)
    (fun x => by by_cases h : x.id = a.id <;> simp [h]) _ i

theorem findAppt_saveTher_eq (db : DB) (t : Therapist) (i : Nat) :
    findAppt (saveTher db t) i = findAppt db i := rfl

theorem findTher_saveAppt_eq (db : DB) (a : Appointment) (i : Nat) :
    findTher (saveAppt db a) i = findTher db i := rfl

theorem findTher_createAppt_eq (db : DB) (a : Appointment) (i : Nat) :
    findTher (createAppt db a) i = findTher db i := rfl

theorem find?_append_of_some {α : Type} (p : α → Bool) {l : List α} {a : α}
    (l' : List α) (h : l.find? p = some a) : (l ++ l').find? p = some a := by
  induction l with
  | nil => cases h
  | cons y ys ih =>
    simp only [List.find?_cons] at h
    simp only [List.cons_append, List.find?_cons]
    cases hb : p y with
    | true => rw [hb] at h; simpa using h
    | false => rw [hb] at h; exact ih h

theorem findAppt_createAppt_of_some {db : DB} {i : Nat} {a : Appointment}
    (x : Appointment) (h : findAppt db i = some a) :
    findAppt (createAppt db x) i = some a :=
  find?_append_of_some _ [x] h

theorem findTher_id {db : DB} {i : Nat} {t : Therapist} (h : findTher db i = some t) :
    t.id = i := by
  unfold findTher at h
  have hp : (t.id == i) = true :=
    @List.find?_some _ (fun x => x.id == i) t db.therapists h
  exact eq_of_beq hp

theorem findAppt_id {db : DB} {i : Nat} {a : Appointment} (h : findAppt db i = some a) :
    a.id = i := by
  unfold findAppt at h
  have hp : (a.id == i) = true :=
    @List.find?_some _ (fun x => x.id == i) a db.appointments h
  exact eq_of_beq hp

theorem findAppt_mem {db : DB} {i : Nat} {a : Appointment} (h : findAppt db i = some a) :
    a ∈ db.appointments := by
  unfold findAppt at h
  exact List.mem_of_find?_eq_some h

theorem findAppt_of_mem_nodup {db : DB} {a : Appointment}
    (hnd : (db.appointments.map (fun x => x.id)).Nodup) (ha : a ∈ db.appointments) :
    findAppt db a.id = some a :=
  find?_key_of_mem_nodup (fun (x : Appointment) => x.id) hnd ha

/-! ### Preservation lemmas -/

theorem apptCompleted_saveAppt {db : DB} {i : Nat} {n : Appointment}
    (h : ApptCompleted db i) (hn : n.status = Status.completed) :
    ApptCompleted (saveAppt db n) i := by
  intro x hx
  rw [findAppt_saveAppt] at hx
  rcases Option.map_eq_some'.mp hx with ⟨y, hy, hxy⟩
  by_cases hid : y.id = n.id
  · rw [if_pos hid] at hxy; rw [← hxy]; exact hn
  · rw [if_neg hid] at hxy; rw [← hxy]; exact h y hy

theorem apptCompleted_saveTher {db : DB} {i : Nat} {t : Therapist}
    (h : ApptCompleted db i) : ApptCompleted (saveTher db t) i := by
  intro x hx
  rw [findAppt_saveTher_eq] at hx
  exact h x hx

theorem therIdle_saveTher {db : DB} {i : Nat} {n : Therapist}
    (h : TherIdle db i) (hn : n.currentSession = some idleLedger) :
    TherIdle (saveTher db n) i := by
  obtain ⟨t, ht, hidle⟩ := h
  refine ⟨if t.id = n.id then n else t, ?_, ?_⟩
  · rw [findTher_saveTher, ht]; rfl
  · by_cases hid : t.id = n.id
    · rw [if_pos hid]; exact hn
    · rw [if_neg hid]; exact hidle

theorem therIdle_saveAppt {db : DB} {i : Nat} {a : Appointment}
    (h : TherIdle db i) : TherIdle (saveAppt db a) i := by
  obtain ⟨t, ht, hidle⟩ := h
  exact ⟨t, by rw [findTher_saveAppt_eq]; exact ht, hidle⟩

/-- The only states the ledger-clear part can produce: unchanged, or one
therapist's ledger cleared to idle. -/
theorem sweepTherClear_outDB (db1 : DB) (a : Appointment) :
    outDB (sweepTherClear db1 a) = db1 ∨
    ∃ t : Therapist, outDB (sweepTherClear db1 a)
        = saveTher db1 { t with currentSession := some idleLedger } := by
  unfold sweepTherClear
  split
  · left; rfl
  · split
    · split
      · split
        · left; rfl
        · split
          · right; exact ⟨_, rfl⟩
          · left; rfl
      · left; rfl
    · left; rfl

/-- The only states a sweep-loop iteration can produce: unchanged, the
appointment marked completed, or additionally one therapist's ledger
cleared to idle. -/
theorem sweepApptStep_outDB (now : Int) (db : DB) (a : Appointment) :
    outDB (sweepApptStep now db a) = db ∨
    outDB (sweepApptStep now db a) = saveAppt db { a with status := Status.completed } ∨
    ∃ t : Therapist, outDB (sweepApptStep now db a)
        = saveTher (saveAppt db { a with status := Status.completed })
            { t with currentSession := some idleLedger } := by
  unfold sweepApptStep
  by_cases hdue : floorMinute a.date + (a.duration : Int) * 60000 < now
  · rw [if_pos hdue]
    rcases sweepTherClear_outDB (saveAppt db { a with status := Status.completed }) a with
      h | ⟨t, h⟩
    · right; left; exact h
    · right; right; exact ⟨t, h⟩
  · rw [if_neg hdue]; left; rfl

theorem apptCompleted_sweepApptStep {now : Int} {db : DB} {a : Appointment} {i : Nat}
    (h : ApptCompleted db i) : ApptCompleted (outDB (sweepApptStep now db a)) i := by
  rcases sweepApptStep_outDB now db a with h1 | h1 | ⟨t, h1⟩ <;> rw [h1]
  · exact h
  · exact apptCompleted_saveAppt h rfl
  · exact apptCompleted_saveTher (apptCompleted_saveAppt h rfl)

theorem therIdle_sweepApptStep {now : Int} {db : DB} {a : Appointment} {i : Nat}
    (h : TherIdle db i) : TherIdle (outDB (sweepApptStep now db a)) i := by
  rcases sweepApptStep_outDB now db a with h1 | h1 | ⟨t, h1⟩ <;> rw [h1]
  · exact h
  · exact therIdle_saveAppt h
  · exact therIdle_saveTher (therIdle_saveAppt h) rfl

theorem apptCompleted_sweepAppts {now : Int} {i : Nat} :
    ∀ (l : List Appointment) {db : DB}, ApptCompleted db i →
      ApptCompleted (outDB (sweepAppts now l db)) i := by
  intro l
  induction l with
  | nil => intro db h; exact h
  | cons a rest ih =>
    intro db h
    have hstep := @apptCompleted_sweepApptStep now db a i h
    unfold sweepAppts
    cases hs : sweepApptStep now db a with
    | ok db' =>
      rw [hs] at hstep
      exact ih hstep
    | error db' =>
      rw [hs] at hstep
      exact hstep

theorem therIdle_sweepAppts {now : Int} {i : Nat} :
    ∀ (l : List Appointment) {db : DB}, TherIdle db i →
      TherIdle (outDB (sweepAppts now l db)) i := by
  intro l
  induction l with
  | nil => intro db h; exact h
  | cons a rest ih =>
    intro db h
    have hstep := @therIdle_sweepApptStep now db a i h
    unfold sweepAppts
    cases hs : sweepApptStep now db a with
    | ok db' => rw [hs] at hstep; exact ih hstep
    | error db' => rw [hs] at hstep; exact hstep

theorem sweepTherStep_shape (now : Int) (db : DB) (t : Therapist) :
    sweepTherStep now db t = db ∨
    sweepTherStep now db t = saveTher db { t with currentSession := some idleLedger } := by
  unfold sweepTherStep
  by_cases h : endsAtOf t + 600000 < now
  · rw [if_pos h]; right; rfl
  · rw [if_neg h]; left; rfl

theorem apptCompleted_sweepThers {now : Int} {i : Nat} :
    ∀ (l : List Therapist) {db : DB}, ApptCompleted db i →
      ApptCompleted (sweepThers now l db) i := by
  intro l
  induction l with
  | nil => intro db h; exact h
  | cons t rest ih =>
    intro db h
    unfold sweepThers
    rcases sweepTherStep_shape now db t with hs | hs <;> rw [hs]
    · exact ih h
    · exact ih (apptCompleted_saveTher h)

theorem therIdle_sweepThers {now : Int} {i : Nat} :
    ∀ (l : List Therapist) {db : DB}, TherIdle db i →
      TherIdle (sweepThers now l db) i := by
  intro l
  induction l with
  | nil => intro db h; exact h
  | cons t rest ih =>
    intro db h
    unfold sweepThers
    rcases sweepTherStep_shape now db t with hs | hs <;> rw [hs]
    · exact ih h
    · exact ih (therIdle_saveTher h rfl)

theorem apptCompleted_sweepTick {now : Int} {db : DB} {i : Nat}
    (h : ApptCompleted db i) : ApptCompleted (sweepTick now db) i := by
  unfold sweepTick
  have hall := @apptCompleted_sweepAppts now i (expiredList now db) db h
  cases hs : sweepAppts now (expiredList now db) db with
  | ok db1 =>
    rw [hs] at hall
    exact apptCompleted_sweepThers _ hall
  | error db' =>
    rw [hs] at hall
    exact hall

theorem therIdle_sweepTick {now : Int} {db : DB} {i : Nat}
    (h : TherIdle db i) : TherIdle (sweepTick now db) i := by
  unfold sweepTick
  have hall := @therIdle_sweepAppts now i (expiredList now db) db h
  cases hs : sweepAppts now (expiredList now db) db with
  | ok db1 =>
    rw [hs] at hall
    exact therIdle_sweepThers _ hall
  | error db' =>
    rw [hs] at hall
    exact hall

/-! ### Exact case analysis of the sweep loop -/

/-- Complete case analysis of the ledger-clear part: either nothing happens,
or an active null-reference ledger throws, or the referencing ledger is
cleared. -/
theorem sweepTherClear_eq_cases (db1 : DB) (b : Appointment) :
    sweepTherClear db1 b = .ok db1 ∨
    (∃ t cs, findTher db1 b.therapistId = some t ∧ t.currentSession = some cs ∧
      cs.isActive = true ∧ cs.appointmentId = none ∧
      sweepTherClear db1 b = .error db1) ∨
    (∃ t cs, findTher db1 b.therapistId = some t ∧ t.currentSession = some cs ∧
      cs.isActive = true ∧ cs.appointmentId = some b.id ∧
      sweepTherClear db1 b
        = .ok (saveTher db1 { t with currentSession := some idleLedger })) := by
  cases hft : findTher db1 b.therapistId with
  | none => left; simp [sweepTherClear, hft]
  | some t =>
    cases hcs : t.currentSession with
    | none => left; simp [sweepTherClear, hft, hcs]
    | some cs =>
      cases hact : cs.isActive with
      | false => left; simp [sweepTherClear, hft, hcs, hact]
      | true =>
        cases happ : cs.appointmentId with
        | none =>
          right; left
          refine ⟨t, cs, ?_, ?_, ?_, ?_, ?_⟩
          · first | rfl | exact hft
          · first | rfl | exact hcs
          · first | rfl | exact hact
          · first | rfl | exact happ
          · simp [sweepTherClear, hft, hcs, hact, happ]
        | some aid =>
          by_cases haid : aid = b.id
          · right; right
            refine ⟨t, cs, ?_, ?_, ?_, ?_, ?_⟩
            · first | rfl | exact hft
            · first | rfl | exact hcs
            · first | rfl | exact hact
            · simp [happ, haid]
            · simp [sweepTherClear, hft, hcs, hact, happ, haid]
          · left
            simp [sweepTherClear, hft, hcs, hact, happ, haid]

/-- The sweep of an appended list runs the first part, then the second on
its result, an error aborting everything. -/
theorem sweepAppts_append (now : Int) (l1 l2 : List Appointment) :
    ∀ db : DB, sweepAppts now (l1 ++ l2) db =
      match sweepAppts now l1 db with
      | .ok d => sweepAppts now l2 d
      | .error d => .error d := by
  induction l1 with
  | nil => intro db; rfl
  | cons b rest ih =>
    intro db
    simp only [List.cons_append, sweepAppts]
    cases hs : sweepApptStep now db b with
    | ok db' => exact ih db'
    | error db' => rfl

/-- A sweep-loop iteration on a due appointment with an active ledger
referencing it: the appointment is completed and the ledger cleared to
idle (not cooldown). -/
theorem sweepApptStep_self {now : Int} {db : DB} {a : Appointment} {t : Therapist} {cs : Ledger}
    (hT : findTher db a.therapistId = some t)
    (hcs : t.currentSession = some cs)
    (hact : cs.isActive = true)
    (href : cs.appointmentId = some a.id)
    (hdue : a.date + (a.duration : Int) * 60000 < now) :
    sweepApptStep now db a
      = .ok (saveTher (saveAppt db { a with status := Status.completed })
          { t with currentSession := some idleLedger }) := by
  have hfm : floorMinute a.date ≤ a.date := by unfold floorMinute; omega
  have hdue' : floorMinute a.date + (a.duration : Int) * 60000 < now := by omega
  unfold sweepApptStep
  rw [if_pos hdue']
  have hT1 : findTher (saveAppt db { a with status := Status.completed }) a.therapistId
      = some t := by rw [findTher_saveAppt_eq]; exact hT
  simp [sweepTherClear, hT1, hcs, hact, href]

/-- One sweep-loop iteration on an appointment with a different id preserves
the tracked appointment record and the tracked therapist's ledger, as long
as that ledger actively references the tracked appointment. -/
theorem sweep_track_step {now : Int} {db db' : DB} {b a : Appointment} {tid : Nat}
    {t : Therapist} {cs : Ledger}
    (hne : b.id ≠ a.id)
    (hA : findAppt db a.id = some a)
    (hT : findTher db tid = some t)
    (hcs : t.currentSession = some cs)
    (hact : cs.isActive = true)
    (href : cs.appointmentId = some a.id)
    (hstep : sweepApptStep now db b = Except.ok db') :
    findAppt db' a.id = some a ∧ findTher db' tid = some t := by
  unfold sweepApptStep at hstep
  by_cases hdue : floorMinute b.date + (b.duration : Int) * 60000 < now
  · rw [if_pos hdue] at hstep
    have hid : a.id ≠ b.id := Ne.symm hne
    have hA1 : findAppt (saveAppt db { b with status := Status.completed }) a.id = some a := by
      rw [findAppt_saveAppt, hA]
      simp [hid]
    have hT1 : findTher (saveAppt db { b with status := Status.completed }) tid = some t := by
      rw [findTher_saveAppt_eq]; exact hT
    rcases sweepTherClear_eq_cases (saveAppt db { b with status := Status.completed }) b with
      hc | ⟨tb, csb, hfb, hcsb, hactb, happb, hc⟩ | ⟨tb, csb, hfb, hcsb, hactb, happb, hc⟩
    · rw [hc] at hstep
      injection hstep with h
      rw [← h]
      exact ⟨hA1, hT1⟩
    · rw [hc] at hstep
      cases hstep
    · rw [hc] at hstep
      injection hstep with h
      rw [← h]
      have htb : tb.id ≠ tid := by
        intro he
        have hbt : tb.id = b.therapistId := findTher_id hfb
        have h2 : b.therapistId = tid := by rw [← hbt]; exact he
        have hfb' : findTher (saveAppt db { b with status := Status.completed }) tid
            = some tb := by rw [← h2]; exact hfb
        have hteq : tb = t := Option.some_injective _ (hfb'.symm.trans hT1)
        rw [hteq] at hcsb
        rw [hcs] at hcsb
        have hcseq : cs = csb := Option.some_injective _ hcsb
        rw [← hcseq] at happb
        rw [href] at happb
        exact hne (Option.some_injective _ happb).symm
      have httb : t.id ≠ tb.id := by
        rw [findTher_id hT]
        exact Ne.symm htb
      constructor
      · rw [findAppt_saveTher_eq]; exact hA1
      · rw [findTher_saveTher, hT1]
        simp [httb]
  · rw [if_neg hdue] at hstep
    injection hstep with h
    rw [← h]
    exact ⟨hA, hT⟩

/-- Tracking through a run of the appointment sweep that touches only other
appointment ids: the tracked appointment and the ledger referencing it are
unchanged. -/
theorem sweep_track_appts {now : Int} {a : Appointment} {tid : Nat}
    {t : Therapist} {cs : Ledger} :
    ∀ (l : List Appointment) {db db' : DB},
      (∀ b ∈ l, b.id ≠ a.id) →
      findAppt db a.id = some a →
      findTher db tid = some t →
      t.currentSession = some cs →
      cs.isActive = true →
      cs.appointmentId = some a.id →
      sweepAppts now l db = Except.ok db' →
      findAppt db' a.id = some a ∧ findTher db' tid = some t := by
  intro l
  induction l with
  | nil =>
    intro db db' _ hA hT _ _ _ hrun
    injection hrun with h
    rw [← h]
    exact ⟨hA, hT⟩
  | cons b rest ih =>
    intro db db' hne hA hT hcs hact href hrun
    unfold sweepAppts at hrun
    cases hs : sweepApptStep now db b with
    | ok dbm =>
      rw [hs] at hrun
      have hinv := sweep_track_step (hne b (List.mem_cons_self b rest)) hA hT hcs hact href hs
      exact ih (fun x hx => hne x (List.mem_cons_of_mem b hx)) hinv.1 hinv.2 hcs hact href hrun
    | error dbm =>
      rw [hs] at hrun
      cases hrun

/-- The state at an appointment-sweep throw: the appointment was already
saved completed, nothing else changed. -/
theorem sweepApptStep_error_state {now : Int} {db db' : DB} {b : Appointment}
    (hstep : sweepApptStep now db b = Except.error db') :
    db' = saveAppt db { b with status := Status.completed } := by
  unfold sweepApptStep at hstep
  by_cases hdue : floorMinute b.date + (b.duration : Int) * 60000 < now
  · rw [if_pos hdue] at hstep
    rcases sweepTherClear_eq_cases (saveAppt db { b with status := Status.completed }) b with
      hc | ⟨tb, csb, _, _, _, _, hc⟩ | ⟨tb, csb, _, _, _, _, hc⟩
    · rw [hc] at hstep; cases hstep
    · rw [hc] at hstep; injection hstep with h; exact h.symm
    · rw [hc] at hstep; cases hstep
  · rw [if_neg hdue] at hstep; cases hstep

/-- A sweep iteration on a due appointment leaves that appointment completed
whenever it returns normally. -/
theorem sweepApptStep_completes {now : Int} {db db' : DB} {a : Appointment}
    (hdue : a.date + (a.duration : Int) * 60000 < now)
    (hA : findAppt db a.id = some a)
    (hstep : sweepApptStep now db a = Except.ok db') :
    ApptCompleted db' a.id := by
  have hdue' : floorMinute a.date + (a.duration : Int) * 60000 < now := by
    unfold floorMinute; omega
  unfold sweepApptStep at hstep
  rw [if_pos hdue'] at hstep
  have hbaseC : ApptCompleted (saveAppt db { a with status := Status.completed }) a.id := by
    intro x hx
    rw [findAppt_saveAppt, hA] at hx
    rcases Option.map_eq_some'.mp hx with ⟨y, hy, hxy⟩
    injection hy with hy'
    subst hy'
    rw [← hxy]
    simp
  rcases sweepTherClear_eq_cases (saveAppt db { a with status := Status.completed }) a with
    hc | ⟨t1, cs1, _, _, _, _, hc⟩ | ⟨t1, cs1, _, _, _, _, hc⟩ <;> rw [hc] at hstep
  · injection hstep with h; rw [← h]; exact hbaseC
  · cases hstep
  · injection hstep with h; rw [← h]; exact apptCompleted_saveTher hbaseC

/-- A run of the appointment sweep over ids other than j leaves record j
unchanged, whether or not an iteration throws. -/
theorem find_sweepAppts_other {now : Int} {j : Nat} :
    ∀ (l : List Appointment) {db : DB}, (∀ b ∈ l, b.id ≠ j) →
      findAppt (outDB (sweepAppts now l db)) j = findAppt db j := by
  intro l
  induction l with
  | nil => intro db _; rfl
  | cons b rest ih =>
    intro db hne
    have hbj : b.id ≠ j := hne b (List.mem_cons_self b rest)
    unfold sweepAppts
    cases hs : sweepApptStep now db b with
    | ok dbm =>
      have hshape := sweepApptStep_outDB now db b
      rw [hs] at hshape
      simp only [outDB] at hshape
      have hkeep : findAppt dbm j = findAppt db j := by
        rcases hshape with h1 | h1 | ⟨t1, h1⟩
        · rw [h1]
        · rw [h1, findAppt_saveAppt]
          cases hfa : findAppt db j with
          | none => rfl
          | some y =>
            have hyj : y.id ≠ b.id := by rw [findAppt_id hfa]; exact Ne.symm hbj
            simp [hyj]
        · rw [h1, findAppt_saveTher_eq, findAppt_saveAppt]
          cases hfa : findAppt db j with
          | none => rfl
          | some y =>
            have hyj : y.id ≠ b.id := by rw [findAppt_id hfa]; exact Ne.symm hbj
            simp [hyj]
      rw [← hkeep]
      exact ih (fun x hx => hne x (List.mem_cons_of_mem b hx))
    | error dbm =>
      have h1 := sweepApptStep_error_state hs
      show findAppt dbm j = findAppt db j
      rw [h1, findAppt_saveAppt]
      cases hfa : findAppt db j with
      | none => rfl
      | some y =>
        have hyj : y.id ≠ b.id := by rw [findAppt_id hfa]; exact Ne.symm hbj
        simp [hyj]

/-- The ledger sweep changes no appointment record. -/
theorem find_sweepThers {now : Int} {j : Nat} :
    ∀ (l : List Therapist) {db : DB}, findAppt (sweepThers now l db) j = findAppt db j := by
  intro l
  induction l with
  | nil => intro db; rfl
  | cons t rest ih =>
    intro db
    unfold sweepThers
    rcases sweepTherStep_shape now db t with hs | hs <;> rw [hs]
    · exact ih
    · rw [ih, findAppt_saveTher_eq]

/-- Splitting a normally-returning appointment sweep around a list split. -/
theorem sweepAppts_split {now : Int} {l1 l2 : List Appointment} {db db1 : DB}
    (h : sweepAppts now (l1 ++ l2) db = Except.ok db1) :
    ∃ dbm, sweepAppts now l1 db = Except.ok dbm ∧ sweepAppts now l2 dbm = Except.ok db1 := by
  rw [sweepAppts_append now l1 l2 db] at h
  cases hm : sweepAppts now l1 db with
  | ok dbm =>
    rw [hm] at h
    exact ⟨dbm, rfl, h⟩
  | error dbm =>
    rw [hm] at h
    cases h

/-- Two appointments of a nodup-id list with the same id are the same
record. -/
theorem appt_eq_of_id_of_nodup {l : List Appointment} {b c : Appointment}
    (hnd : (l.map (fun x => x.id)).Nodup) (hb : b ∈ l) (hc : c ∈ l)
    (he : b.id = c.id) : b = c :=
  List.inj_on_of_nodup_map hnd hb hc he

/-- The possible states after the end-session ledger update: unchanged, or
one therapist's ledger moved to the 10-minute cooldown. -/
theorem endLedgerUpdate_snd (db1 : DB) (a : Appointment) (now : Int) :
    (endLedgerUpdate db1 a now).2 = db1 ∨
    ∃ t : Therapist, (endLedgerUpdate db1 a now).2
      = saveTher db1 { t with currentSession := some ⟨true, none, none, some (now + 600000)⟩ } := by
  unfold endLedgerUpdate
  split
  · left; rfl
  · split
    · left; rfl
    · split
      · left; rfl
      · split
        · right; exact ⟨_, rfl⟩
        · left; rfl

/-- end-session preserves a completed record anywhere in the store (every
appointment write of the route writes the completed status). -/
theorem apptCompleted_endSession {db : DB} {now : Int} {c i j : Nat}
    (h : ApptCompleted db j) : ApptCompleted (endSession db now c i).2 j := by
  unfold endSession
  cases hA : findAppt db i with
  | none => exact h
  | some a =>
    have hstep : ApptCompleted (saveAppt db { a with status := Status.completed }) j :=
      apptCompleted_saveAppt h rfl
    rcases endLedgerUpdate_snd (saveAppt db { a with status := Status.completed }) a now with
      h1 | ⟨t1, h1⟩ <;> rw [h1]
    · exact hstep
    · exact apptCompleted_saveTher hstep

/-- end-session marks the found appointment completed. -/
theorem endSession_completes {db : DB} {now : Int} {c i : Nat} {a : Appointment}
    (hA : findAppt db i = some a) :
    ApptCompleted (endSession db now c i).2 i := by
  unfold endSession
  rw [hA]
  have hbase : ApptCompleted (saveAppt db { a with status := Status.completed }) i := by
    intro x hx
    rw [findAppt_saveAppt, hA] at hx
    rcases Option.map_eq_some'.mp hx with ⟨y, hy, hxy⟩
    injection hy with hy'
    subst hy'
    rw [← hxy]
    simp
  rcases endLedgerUpdate_snd (saveAppt db { a with status := Status.completed }) a now with
    h1 | ⟨t1, h1⟩ <;> rw [h1]
  · exact hbase
  · exact apptCompleted_saveTher hbase

/-- The booking continuation never modifies an existing appointment record. -/
theorem find_bookFinish {db : DB} {t : Therapist} {p : Nat} {now : Int}
    {uid dur nid : Nat} {ml : String} {j : Nat} {a : Appointment}
    (hA : findAppt db j = some a) :
    findAppt (bookFinish db t p now uid dur nid ml).2 j = some a := by
  unfold bookFinish
  by_cases hu : uid ∈ db.users
  · rw [if_pos hu]
    show findAppt (saveTher (createAppt db _) _) j = some a
    rw [findAppt_saveTher_eq]
    exact findAppt_createAppt_of_some _ hA
  · rw [if_neg hu]
    exact hA

/-- instant-book never modifies an existing appointment record (it only
appends a new one and rewrites therapist ledgers). -/
theorem find_instantBook {db : DB} {now : Int} {uid tid dur nid : Nat} {ml : String}
    {j : Nat} {a : Appointment} (hA : findAppt db j = some a) :
    findAppt (instantBook db now uid tid dur nid ml).2 j = some a := by
  by_cases h1 : tid = 0 ∨ dur = 0
  · rcases h1 with h | h <;> simp [instantBook, h] <;> exact hA
  · push_neg at h1
    obtain ⟨ht0, hd0⟩ := h1
    by_cases h2 : dur = 30 ∨ dur = 60
    · cases hT : findTher db tid with
      | none => simp [instantBook, ht0, hd0, h2, hT]; exact hA
      | some th =>
        cases hp : th.perSession with
        | none => simp [instantBook, ht0, hd0, h2, hT, hp]; exact hA
        | some p =>
          by_cases hp0 : p = 0
          · simp [instantBook, ht0, hd0, h2, hT, hp, hp0]; exact hA
          · cases hcs : th.currentSession with
            | none =>
              simp [instantBook, ht0, hd0, h2, hT, hp, hp0, hcs]
              exact find_bookFinish hA
            | some cs =>
              cases hact : cs.isActive with
              | false =>
                simp [instantBook, ht0, hd0, h2, hT, hp, hp0, hcs, hact]
                exact find_bookFinish hA
              | true =>
                cases hend : cs.endsAt with
                | none =>
                  simp [instantBook, ht0, hd0, h2, hT, hp, hp0, hcs, hact, hend]
                  exact find_bookFinish (by rw [findAppt_saveTher_eq]; exact hA)
                | some e =>
                  by_cases hlt : now < e
                  · simp [instantBook, ht0, hd0, h2, hT, hp, hp0, hcs, hact, hend, hlt]
                    exact hA
                  · simp [instantBook, ht0, hd0, h2, hT, hp, hp0, hcs, hact, hend, hlt]
                    exact find_bookFinish (by rw [findAppt_saveTher_eq]; exact hA)
    · simp [instantBook, ht0, hd0, h2]; exact hA

/-! ### The claims -/

/-- C1: a valid instant-booking request against a therapist whose ledger is
active with a future endsAt fails with the therapist-busy conflict whose
availableAt equals the ledger's endsAt (hence availableAt is at least now),
no appointment is created, and the whole store - the ledger included - is
left unchanged. -/
theorem instantBook_busy_conflict
    (db : DB) (now : Int) (userId therapistId duration newApptId : Nat) (ml : String)
    (t : Therapist) (p : Nat) (cs : Ledger) (e : Int)
    (htid : therapistId ≠ 0)
    (hdur : duration = 30 ∨ duration = 60)
    (hT : findTher db therapistId = some t)
    (hp : t.perSession = some p) (hp0 : p ≠ 0)
    (hcs : t.currentSession = some cs)
    (hact : cs.isActive = true)
    (hend : cs.endsAt = some e)
    (hlt : now < e) :
    instantBook db now userId therapistId duration newApptId ml = (.busy e, db) ∧ now ≤ e := by
  have hd0 : duration ≠ 0 := by rcases hdur with h | h <;> simp [h]
  refine ⟨?_, le_of_lt hlt⟩
  simp [instantBook, htid, hd0, hdur, hT, hp, hp0, hcs, hact, hend, hlt]

/-- Witness for C1 on the concrete store dbA. -/
theorem instantBook_busy_conflict_witness :
    instantBook dbA 100 10 2 30 99 "r" = (.busy 1800000, dbA) ∧ (100 : Int) ≤ 1800000 :=
  instantBook_busy_conflict dbA 100 10 2 30 99 "r" therA 500
    ⟨true, some 1, some 0, some 1800000⟩ 1800000 (by decide) (Or.inl rfl) rfl rfl
    (by decide) rfl rfl rfl (by decide)

/-- C3: end-session is not idempotent in the error sense the spec demands.
On dbA the first end-session call succeeds, marks the appointment completed
and puts the ledger into cooldown with a null appointmentId; the second call
still reports status completed but throws (appointmentId.toString() on null)
and answers 500 instead of succeeding. -/
theorem double_end_second_call_errors :
    (endSession dbA 1800000 10 1).1 = .ok ∧
    (findAppt (endSession dbA 1800000 10 1).2 1).map (fun a => a.status)
      = some .completed ∧
    (findTher (endSession dbA 1800000 10 1).2 2).map (fun t => t.currentSession)
      = some (some ⟨true, none, none, some 2400000⟩) ∧
    (endSession (endSession dbA 1800000 10 1).2 1801000 10 1).1 = .serverError ∧
    (findAppt (endSession (endSession dbA 1800000 10 1).2 1801000 10 1).2 1).map
        (fun a => a.status) = some .completed := by
  decide

/-- C7: the charged amount is Math.ceil of a binary64 computation, not the
exact ceil(perSession / 30 * duration).  At perSession 500 the binary64
rounding of 500/30 lies above 50/3 and the products round above 500 and
1000, so the code charges 501 and 1001 where the exact formula the spec
states gives 500 and 1000; at perSession 333, duration 60 both agree on 666.
The full route therefore books a 30-minute session at price 500 with a
payment amount of 501. -/
theorem pricing_binary64_divergence :
    amountJS 500 30 = 501 ∧ amountJS 500 60 = 1001 ∧ amountJS 333 60 = 666 ∧
    amountSpec 500 30 = 500 ∧ amountSpec 500 60 = 1000 ∧ amountSpec 333 60 = 666 ∧
    (instantBook dbP 0 10 2 30 99 "room").1
      = .ok ⟨99, 10, 2, 300000, 30, .scheduled, 501, "room"⟩ 300000 := by
  decide

/-- C2 counterexample: end-session moves a cancelled appointment out of its
terminal state, to completed. -/
theorem endSession_uncancels_cex :
    (findAppt dbC 1).map (fun a => a.status) = some .cancelled ∧
    (endSession dbC 0 10 1).1 = .ok ∧
    (findAppt (endSession dbC 0 10 1).2 1).map (fun a => a.status) = some .completed := by
  decide

/-- C2 amended: a completed appointment never changes status again
(end-session, instant-book and sweeper ticks all preserve it; join-session
writes nothing), the sweeper never touches any existing record except the
overdue scheduled ones it completes (in particular cancelled appointments
are preserved, given distinct record ids), and instant-book never modifies
any existing appointment record at all.  However, end-session sets the
status of whatever appointment it finds to completed unconditionally, which
moves a cancelled appointment to completed. -/
theorem status_transitions_amended :
    (∀ (db : DB) (now : Int) (c i j : Nat), ApptCompleted db j →
       ApptCompleted (endSession db now c i).2 j) ∧
    (∀ (db : DB) (now : Int) (j : Nat), ApptCompleted db j →
       ApptCompleted (sweepTick now db) j) ∧
    (∀ (db : DB) (now : Int) (uid tid dur nid : Nat) (ml : String) (j : Nat)
       (a : Appointment), findAppt db j = some a →
       findAppt (instantBook db now uid tid dur nid ml).2 j = some a) ∧
    (∀ (db : DB) (now : Int) (j : Nat) (c : Appointment),
       (db.appointments.map (fun x => x.id)).Nodup →
       findAppt db j = some c → c.status = Status.cancelled →
       findAppt (sweepTick now db) j = some c) ∧
    (∀ (db : DB) (now : Int) (cl i : Nat) (a : Appointment),
       findAppt db i = some a →
       ApptCompleted (endSession db now cl i).2 i) := by
  refine ⟨?_, ?_, ?_, ?_, ?_⟩
  · intro db now c i j h
    exact apptCompleted_endSession h
  · intro db now j h
    exact apptCompleted_sweepTick h
  · intro db now uid tid dur nid ml j a hA
    exact find_instantBook hA
  · intro db now j c hnd hA hc
    have hmemc := findAppt_mem hA
    have hne : ∀ b ∈ expiredList now db, b.id ≠ j := by
      intro b hb hbid
      have hmemb : b ∈ db.appointments := (List.mem_filter.mp hb).1
      have hsch : b.status = Status.scheduled := by
        have := (List.mem_filter.mp hb).2
        simp only [Bool.and_eq_true, decide_eq_true_eq] at this
        exact this.1
      have : b = c := appt_eq_of_id_of_nodup hnd hmemb hmemc
        (by rw [hbid, findAppt_id hA])
      rw [this, hc] at hsch
      cases hsch
    unfold sweepTick
    cases hs : sweepAppts now (expiredList now db) db with
    | ok db1 =>
      have h1 := @find_sweepAppts_other now j (expiredList now db) db hne
      rw [hs] at h1
      simp only [outDB] at h1
      rw [find_sweepThers, h1]
      exact hA
    | error dbm =>
      have h1 := @find_sweepAppts_other now j (expiredList now db) db hne
      rw [hs] at h1
      simp only [outDB] at h1
      show findAppt dbm j = some c
      rw [h1]
      exact hA
  · intro db now cl i a hA
    exact endSession_completes hA

/-- Witness for the C2 amendment on the concrete store dbC. -/
theorem status_transitions_amended_witness :
    ApptCompleted (endSession dbC 0 10 1).2 1 ∧
    findAppt (sweepTick 0 dbC) 1 = some apptC :=
  ⟨status_transitions_amended.2.2.2.2 dbC 0 10 1 apptC rfl,
   status_transitions_amended.2.2.2.1 dbC 0 1 apptC (by decide) rfl rfl⟩

/-- C10: the end-session handler performs no per-caller authorization - its
outcome is identical for every authenticated caller identity - while
join-session rejects a caller that is neither the booking user nor the
assigned therapist with a 403.  Any authenticated user can therefore
complete any appointment and put its therapist into cooldown. -/
theorem endSession_caller_blind :
    (∀ (db : DB) (now : Int) (c1 c2 apptId : Nat),
       endSession db now c1 apptId = endSession db now c2 apptId) ∧
    (∀ (db : DB) (now : Int) (c apptId : Nat) (a : Appointment),
       findAppt db apptId = some a → c ≠ a.userId → c ≠ a.therapistId →
       joinSession db now c apptId = .forbidden) := by
  constructor
  · intro db now c1 c2 apptId
    rfl
  · intro db now c apptId a hA h1 h2
    have hu : a.userId ≠ c := Ne.symm h1
    have ht : a.therapistId ≠ c := Ne.symm h2
    simp [joinSession, hA, hu, ht]

/-- Witness for C10: caller 7 and caller 8 get the same end-session result
on dbA, and the unrelated caller 99 is rejected from joining apptJ. -/
theorem endSession_caller_blind_witness :
    endSession dbA 0 7 1 = endSession dbA 0 8 1 ∧ joinSession dbJ 0 99 1 = .forbidden :=
  ⟨endSession_caller_blind.1 dbA 0 7 8 1,
   endSession_caller_blind.2 dbJ 0 99 1 apptJ rfl (by decide) (by decide)⟩

/-- C4 counterexample: on the same overdue state, the sweeper's appointment
pass clears the referencing ledger to fully idle (isActive false) while the
End-Session Operation would put it in cooldown (isActive true, endsAt set);
the two do not leave the system in the same state. -/
theorem sweep_not_cooldown_cex :
    (findAppt (sweepTick 10000000 dbA) 1).map (fun a => a.status) = some .completed ∧
    (findTher (sweepTick 10000000 dbA) 2).map (fun t => t.currentSession)
      = some (some idleLedger) ∧
    idleLedger.isActive = false ∧
    (findTher (endSession dbA 10000000 10 1).2 2).map (fun t => t.currentSession)
      = some (some ⟨true, none, none, some 10600000⟩) := by
  decide

/-- C4 amended: at a tick whose appointment pass completes without a throw,
every scheduled appointment whose end instant is past is marked completed,
and if the therapist's ledger is active and still references it, the ledger
is cleared to fully idle (isActive false, all fields null) - not moved to
cooldown as the End-Session Operation would do. -/
theorem sweep_autoend_amended
    (db : DB) (now : Int) (a : Appointment) (db1 : DB)
    (hnd : (db.appointments.map (fun x => x.id)).Nodup)
    (hmem : a ∈ db.appointments)
    (hst : a.status = Status.scheduled)
    (hdue : a.date + (a.duration : Int) * 60000 < now)
    (hok : sweepAppts now (expiredList now db) db = Except.ok db1) :
    ApptCompleted (sweepTick now db) a.id ∧
    (∀ (t : Therapist) (cs : Ledger),
       findTher db a.therapistId = some t →
       t.currentSession = some cs →
       cs.isActive = true →
       cs.appointmentId = some a.id →
       ∃ t' : Therapist, findTher (sweepTick now db) a.therapistId = some t' ∧
         t'.currentSession = some idleLedger) := by
  have hdatele : a.date ≤ now := by omega
  have hexp : a ∈ expiredList now db := by
    unfold expiredList
    rw [List.mem_filter]
    refine ⟨hmem, ?_⟩
    simp [hst, hdatele]
  obtain ⟨l1, l2, hsplit⟩ := List.append_of_mem hexp
  have hndE : ((expiredList now db).map (fun x => x.id)).Nodup := by
    have hsub : List.Sublist (expiredList now db) db.appointments := List.filter_sublist _
    exact List.Nodup.sublist (hsub.map (fun x => x.id)) hnd
  have hne1 : ∀ b ∈ l1, b.id ≠ a.id := by
    intro b hb he
    rw [hsplit, List.map_append] at hndE
    have hdisj := (List.nodup_append.mp hndE).2.2
    have hmem2 : b.id ∈ (a :: l2).map (fun x => x.id) := by
      rw [he]; simp
    exact hdisj (List.mem_map_of_mem (fun x => x.id) hb) hmem2
  rw [hsplit] at hok
  obtain ⟨dbm, hl1, hrest⟩ := sweepAppts_split hok
  have hA0 : findAppt db a.id = some a := findAppt_of_mem_nodup hnd hmem
  have hAm : findAppt dbm a.id = some a := by
    have h1 := @find_sweepAppts_other now a.id l1 db hne1
    rw [hl1] at h1
    simp only [outDB] at h1
    rw [h1]
    exact hA0
  have hstepx : ∃ dbb, sweepApptStep now dbm a = Except.ok dbb ∧
      sweepAppts now l2 dbb = Except.ok db1 := by
    unfold sweepAppts at hrest
    cases hs : sweepApptStep now dbm a with
    | ok dbb => rw [hs] at hrest; exact ⟨dbb, rfl, hrest⟩
    | error dbb => rw [hs] at hrest; cases hrest
  obtain ⟨dbb, hsa, hl2⟩ := hstepx
  constructor
  · have hCb : ApptCompleted dbb a.id := sweepApptStep_completes hdue hAm hsa
    have hC1 : ApptCompleted db1 a.id := by
      have h2 := @apptCompleted_sweepAppts now a.id l2 dbb hCb
      rw [hl2] at h2
      simpa [outDB] using h2
    unfold sweepTick
    rw [hsplit, hok]
    exact apptCompleted_sweepThers _ hC1
  · intro t cs hT hcs hact href
    have htrack := @sweep_track_appts now a a.therapistId t cs l1 db dbm
      hne1 hA0 hT hcs hact href hl1
    have hself := sweepApptStep_self htrack.2 hcs hact href hdue
    have hdbb : dbb = saveTher (saveAppt dbm { a with status := Status.completed })
        { t with currentSession := some idleLedger } := by
      rw [hsa] at hself
      injection hself with h
    have hTI : TherIdle dbb a.therapistId := by
      rw [hdbb]
      refine ⟨{ t with currentSession := some idleLedger }, ?_, rfl⟩
      have hT2 : findTher (saveAppt dbm { a with status := Status.completed }) a.therapistId
          = some t := by rw [findTher_saveAppt_eq]; exact htrack.2
      rw [findTher_saveTher, hT2]
      simp
    have hTI1 : TherIdle db1 a.therapistId := by
      have h2 := @therIdle_sweepAppts now a.therapistId l2 dbb hTI
      rw [hl2] at h2
      simpa [outDB] using h2
    unfold sweepTick
    rw [hsplit, hok]
    exact therIdle_sweepThers _ hTI1

/-- Witness for the C4 amendment on the concrete store dbA. -/
theorem sweep_autoend_amended_witness :
    ApptCompleted (sweepTick 10000000 dbA) 1 ∧
    (∃ t' : Therapist, findTher (sweepTick 10000000 dbA) 2 = some t' ∧
       t'.currentSession = some idleLedger) := by
  have h := sweep_autoend_amended dbA 10000000 apptA
    (saveTher (saveAppt dbA { apptA with status := Status.completed })
      { therA with currentSession := some idleLedger })
    (by decide) (by decide) rfl (by decide) (by rfl)
  exact ⟨h.1, h.2 therA ⟨true, some 1, some 0, some 1800000⟩ rfl rfl rfl rfl⟩

/-- C5: for an authorized caller the join check behaves exactly as the
three-way window: before start minus five minutes it rejects carrying the
wait in minutes - the exact ceiling of the remaining time over one minute -
and canJoinAt = start - 5min; from start - 5min through end inclusive (both
boundary instants included) it returns the room identifier; after end it
rejects with the session-ended error. -/
theorem join_window_correct
    (db : DB) (now : Int) (callerId apptId : Nat) (a : Appointment)
    (hA : findAppt db apptId = some a)
    (hauth : a.userId = callerId ∨ a.therapistId = callerId) :
    (now < a.date - 300000 →
       joinSession db now callerId apptId
         = .tooEarly (ceilDiv (a.date - 300000 - now) 60000) (a.date - 300000) ∧
       60000 * (ceilDiv (a.date - 300000 - now) 60000 - 1) < a.date - 300000 - now ∧
       a.date - 300000 - now ≤ 60000 * ceilDiv (a.date - 300000 - now) 60000) ∧
    (a.date - 300000 ≤ now → now ≤ a.date + (a.duration : Int) * 60000 →
       joinSession db now callerId apptId = .ok a.meetingLink (a.therapistId == callerId)) ∧
    (a.date + (a.duration : Int) * 60000 < now →
       joinSession db now callerId apptId = .ended) := by
  have hauthb : (!(a.userId == callerId) && !(a.therapistId == callerId)) = false := by
    rcases hauth with h | h <;> simp [h]
  refine ⟨?_, ?_, ?_⟩
  · intro hlt
    refine ⟨?_, ?_, ?_⟩
    · simp [joinSession, hA, hauthb, hlt]
    · unfold ceilDiv
      omega
    · unfold ceilDiv
      omega
  · intro h1 h2
    have hne : ¬ now < a.date - 300000 := by omega
    have hne2 : ¬ a.date + (a.duration : Int) * 60000 < now := by omega
    simp [joinSession, hA, hauthb, hne, hne2]
  · intro hgt
    have hne : ¬ now < a.date - 300000 := by
      have hd : (0 : Int) ≤ (a.duration : Int) * 60000 := by positivity
      omega
    simp [joinSession, hA, hauthb, hne, hgt]

/-- Witness for C5 on apptJ: too early at the epoch with a five-minute wait,
open exactly at start - 5min and exactly at end (for the therapist too),
ended one millisecond after end. -/
theorem join_window_correct_witness :
    joinSession dbJ 0 10 1 = .tooEarly 5 300000 ∧
    joinSession dbJ 300000 10 1 = .ok "roomJ" false ∧
    joinSession dbJ 2400000 2 1 = .ok "roomJ" true ∧
    joinSession dbJ 2400001 10 1 = .ended := by
  refine ⟨?_, ?_, ?_, ?_⟩
  · exact ((join_window_correct dbJ 0 10 1 apptJ rfl (Or.inl rfl)).1
      (by decide)).1.trans (by decide)
  · exact ((join_window_correct dbJ 300000 10 1 apptJ rfl (Or.inl rfl)).2.1
      (by decide) (by decide)).trans (by decide)
  · exact ((join_window_correct dbJ 2400000 2 1 apptJ rfl (Or.inr rfl)).2.1
      (by decide) (by decide)).trans (by decide)
  · exact (join_window_correct dbJ 2400001 10 1 apptJ rfl (Or.inl rfl)).2.2 (by decide)

/-- C6: a ledger observed as isActive with null endsAt is reset to fully
idle and the reset persisted by the therapist-status route, which reports
the therapist available without throwing; and a valid instant-booking
request against that corrupt state behaves exactly as the same request
against the store with the ledger already healed. -/
theorem corrupt_ledger_selfheal
    (db : DB) (now : Int) (therapistId : Nat) (t : Therapist) (cs : Ledger) (p : Nat)
    (htid : therapistId ≠ 0)
    (hT : findTher db therapistId = some t)
    (hcs : t.currentSession = some cs)
    (hact : cs.isActive = true)
    (hend : cs.endsAt = none)
    (hp : t.perSession = some p) (hp0 : p ≠ 0) :
    therapistStatus db now therapistId
      = (.ok ⟨true, none, some idleLedger⟩,
         saveTher db { t with currentSession := some idleLedger }) ∧
    (∃ t' : Therapist,
       findTher (therapistStatus db now therapistId).2 therapistId = some t' ∧
       t'.currentSession = some idleLedger) ∧
    (∀ (userId duration newApptId : Nat) (ml : String),
       duration = 30 ∨ duration = 60 →
       instantBook db now userId therapistId duration newApptId ml
         = instantBook (saveTher db { t with currentSession := some idleLedger })
             now userId therapistId duration newApptId ml) := by
  have hstat : therapistStatus db now therapistId
      = (.ok ⟨true, none, some idleLedger⟩,
         saveTher db { t with currentSession := some idleLedger }) := by
    simp [therapistStatus, hT, hcs, hact, hend]
  refine ⟨hstat, ?_, ?_⟩
  · rw [hstat]
    refine ⟨{ t with currentSession := some idleLedger }, ?_, rfl⟩
    show findTher (saveTher db _) therapistId = _
    rw [findTher_saveTher, hT]
    simp
  · intro uid dur nid ml hdur
    have hd0 : dur ≠ 0 := by rcases hdur with h | h <;> simp [h]
    have hT' : findTher (saveTher db { t with currentSession := some idleLedger }) therapistId
        = some { t with currentSession := some idleLedger } := by
      rw [findTher_saveTher, hT]; simp
    calc instantBook db now uid therapistId dur nid ml
        = bookFinish (saveTher db { t with currentSession := some idleLedger })
            { t with currentSession := some idleLedger } p now uid dur nid ml := by
          simp [instantBook, htid, hd0, hdur, hT, hp, hp0, hcs, hact, hend]
      _ = instantBook (saveTher db { t with currentSession := some idleLedger })
            now uid therapistId dur nid ml := by
          symm
          have hidle : idleLedger.isActive = false := rfl
          have hT2 := hT'
          simp only [hp] at hT2
          simp [instantBook, htid, hd0, hdur, hT2, hp, hp0, hidle]

/-- Witness for C6 on the concrete corrupt store dbX. -/
theorem corrupt_ledger_selfheal_witness :
    therapistStatus dbX 0 2
      = (.ok ⟨true, none, some idleLedger⟩,
         saveTher dbX ⟨2, some 500, some idleLedger⟩) ∧
    instantBook dbX 0 10 2 30 99 "room"
      = instantBook (saveTher dbX ⟨2, some 500, some idleLedger⟩) 0 10 2 30 99 "room" := by
  have h := corrupt_ledger_selfheal dbX 0 2 ⟨2, some 500, some ⟨true, none, none, none⟩⟩
    ⟨true, none, none, none⟩ 500 (by decide) rfl rfl rfl rfl rfl (by decide)
  exact ⟨h.1, h.2.2 10 30 99 "room" (Or.inl rfl)⟩

/-- C8 counterexample: at one tick over dbE the first overdue appointment is
processed (saved completed) but its therapist's active ledger carries a null
appointmentId, so the iteration throws; the second overdue appointment of
the same tick stays scheduled and its therapist's ledger stays stale - the
remaining items were not processed. -/
theorem sweep_abort_cex :
    (findAppt (sweepTick 10000000 dbE) 1).map (fun a => a.status) = some .completed ∧
    (findAppt (sweepTick 10000000 dbE) 3).map (fun a => a.status) = some .scheduled ∧
    (findTher (sweepTick 10000000 dbE) 4).map (fun t => t.currentSession)
      = some (some ⟨true, some 3, some 0, some 1800000⟩) := by
  decide

/-- C8 amended: the whole tick runs under a single try/catch, so a throw
while processing one appointment aborts the remainder of that tick: the
sweep of any following items returns the error state immediately, the
ledger pass is skipped, and every other record is left exactly as it was;
the catch only keeps the service itself alive. -/
theorem sweep_abort_amended
    (now : Int) (db db' : DB) (a : Appointment) (rest : List Appointment)
    (hstep : sweepApptStep now db a = Except.error db') :
    sweepAppts now (a :: rest) db = Except.error db' ∧
    (expiredList now db = a :: rest → sweepTick now db = db') ∧
    db' = saveAppt db { a with status := Status.completed } ∧
    (∀ j, j ≠ a.id → findAppt db' j = findAppt db j) := by
  have hshape := sweepApptStep_error_state hstep
  have habort : sweepAppts now (a :: rest) db = Except.error db' := by
    unfold sweepAppts
    rw [hstep]
  refine ⟨habort, ?_, hshape, ?_⟩
  · intro hexp
    unfold sweepTick
    rw [hexp, habort]
  · intro j hj
    rw [hshape, findAppt_saveAppt]
    cases hfa : findAppt db j with
    | none => rfl
    | some y =>
      have hyj : y.id ≠ a.id := by rw [findAppt_id hfa]; exact hj
      simp [hyj]

/-- Witness for the C8 amendment on dbE: the first item throws, the tick
ends in the state with only appointment 1 completed. -/
theorem sweep_abort_amended_witness :
    sweepAppts 10000000 [apptE1, apptE3] dbE = Except.error dbE1 ∧
    sweepTick 10000000 dbE = dbE1 ∧
    dbE1 = saveAppt dbE { apptE1 with status := Status.completed } := by
  have h := sweep_abort_amended 10000000 dbE dbE1 apptE1 [apptE3] (by rfl)
  exact ⟨h.1, h.2.1 (by rfl), h.2.2.1⟩

/-- C9: ending a session the therapist's ledger still references puts the
ledger into cooldown: endsAt becomes exactly now + 10 minutes (so at least
the moment of the call) with isActive still true - not the idle object - so
the therapist stays blocked from instant re-booking for the buffer. -/
theorem endSession_cooldown
    (db : DB) (now : Int) (callerId apptId : Nat) (a : Appointment)
    (t : Therapist) (cs : Ledger)
    (hA : findAppt db apptId = some a)
    (hT : findTher db a.therapistId = some t)
    (hcs : t.currentSession = some cs)
    (href : cs.appointmentId = some a.id) :
    endSession db now callerId apptId
      = (.ok, saveTher (saveAppt db { a with status := Status.completed })
          { t with currentSession := some ⟨true, none, none, some (now + 600000)⟩ }) ∧
    (∃ t' : Therapist,
       findTher (endSession db now callerId apptId).2 a.therapistId = some t' ∧
       t'.currentSession = some ⟨true, none, none, some (now + 600000)⟩ ∧
       t'.currentSession ≠ some idleLedger) ∧
    now ≤ now + 600000 := by
  have hT1 : findTher (saveAppt db { a with status := Status.completed }) a.therapistId
      = some t := by rw [findTher_saveAppt_eq]; exact hT
  have hmain : endSession db now callerId apptId
      = (.ok, saveTher (saveAppt db { a with status := Status.completed })
          { t with currentSession := some ⟨true, none, none, some (now + 600000)⟩ }) := by
    simp [endSession, hA, endLedgerUpdate, hT1, hcs, href]
  refine ⟨hmain, ?_, by omega⟩
  rw [hmain]
  refine ⟨{ t with currentSession := some ⟨true, none, none, some (now + 600000)⟩ },
    ?_, rfl, by simp [idleLedger]⟩
  show findTher (saveTher _ _) _ = _
  rw [findTher_saveTher, hT1]
  simp

/-- Witness for C9 on dbA at the moment the session ends. -/
theorem endSession_cooldown_witness :
    endSession dbA 1800000 10 1
      = (.ok, saveTher (saveAppt dbA { apptA with status := Status.completed })
          { therA with currentSession := some ⟨true, none, none, some (1800000 + 600000)⟩ }) ∧
    (∃ t' : Therapist,
       findTher (endSession dbA 1800000 10 1).2 apptA.therapistId = some t' ∧
       t'.currentSession = some ⟨true, none, none, some (1800000 + 600000)⟩ ∧
       t'.currentSession ≠ some idleLedger) ∧
    (1800000 : Int) ≤ 1800000 + 600000 :=
  endSession_cooldown dbA 1800000 10 1 apptA therA
    ⟨true, some 1, some 0, some 1800000⟩ rfl rfl rfl rfl

end ZenMind
